import Mathlib

/-!
# Verification of the Excel-to-CSV identity-resolution core (`src/app.py`)

Shallow embedding of the `ExcelToCSVProcessor` class: field normalizers,
the lot registry (`add_lot`), the per-row record extractor (`process_sheet`),
the integrity validator (`validate_data_integrity`) and the serialization
layer (`generate_csv_files`).

Modelling conventions:
* A spreadsheet cell is a tagged union `Cell` over {missing/NaN, string,
  number, datetime}; numbers are `Rat` (Python floats are modelled as exact
  rationals, with `round(x, 4)` as round-half-even on `x * 10^4`), a datetime
  cell carries its `YYYY-MM-DD` rendering (`strftime` of the value).
* `str(uuid.uuid4())` is modelled as a fresh-identifier supply: the state
  carries a counter `nextId`, and each generated surrogate identifier is the
  current counter value (a `Nat`).
* The platform primitives `pd.to_datetime(...)` (generic date parsing),
  `float(str)` and `str(number)` are abstracted as a parameter record
  `Prims`; every theorem quantifies over all behaviours of these primitives.
* Python's `dict` keyed by `lot_number` is an insertion-ordered association
  list; the in-place mutation of the shared lot object is modelled by
  updating both the association list and the accumulated `lots_data` list
  exactly as the source does.
-/

namespace CsvTrial

/-- A spreadsheet cell as delivered by pandas: missing (`NaN`/`None`/`NaT`),
a string, a number, or a datetime (carrying its `YYYY-MM-DD` rendering). -/
inductive Cell where
  | blank : Cell
  | str (s : String) : Cell
  | num (x : Rat) : Cell
  | date (ymd : String) : Cell
deriving DecidableEq, Repr

/-- Abstracted platform primitives. `parseDateStr` is
`pd.to_datetime(string, errors=coerce)` followed by `strftime` (`none` = NaT);
`parseDateNum` is the same applied to a numeric value; `floatOfStr` is
Python `float(str)` (`none` = ValueError); `strOfNum` is Python `str(number)`. -/
structure Prims where
  parseDateStr : String → Option String
  parseDateNum : Rat → Option String
  floatOfStr : String → Option Rat
  strOfNum : Rat → String

/-- `pd.isna` on a cell. -/
def isNa : Cell → Bool
  | Cell.blank => true
  | _ => false

/-- Python `str.strip()`: drop leading and trailing whitespace. -/
def pyStrip (s : String) : String :=
  String.mk
    (((s.data.dropWhile Char.isWhitespace).reverse.dropWhile Char.isWhitespace).reverse)

/-- Python `str.split(sep)` on a list of characters (keeps empty fields). -/
def pySplit (sep : Char) : List Char → List (List Char)
  | [] => [[]]
  | c :: cs =>
      if c = sep then [] :: pySplit sep cs
      else
        match pySplit sep cs with
        | [] => [[c]]
        | g :: gs => (c :: g) :: gs

/-- Python `str.zfill(w)`: left-pad with `0` up to width `w`, keeping a
leading sign in front of the padding. -/
def zfill (w : Nat) (l : List Char) : List Char :=
  if w ≤ l.length then l
  else
    match l with
    | [] => List.replicate w '0'
    | c :: rest =>
        if c = '+' ∨ c = '-' then c :: (List.replicate (w - l.length) '0' ++ rest)
        else List.replicate (w - l.length) '0' ++ l

/-- The day-first rewrite rule of `normalize_date` for one separator:
if the separator occurs, the split has exactly three parts and the first
part has two characters, reassemble as `year-month.zfill(2)-day.zfill(2)`. -/
def tryDayFirst (sep : Char) (cs : List Char) : Option (List Char) :=
  if cs.contains sep then
    match pySplit sep cs with
    | [d, m, y] =>
        if d.length = 2 then some (y ++ '-' :: (zfill 2 m ++ '-' :: zfill 2 d))
        else none
    | _ => none
  else none

/-- `ExcelToCSVProcessor.normalize_date` (src/app.py lines 37-78). -/
def normalize_date (P : Prims) : Cell → Option String
  | Cell.blank => none
  | Cell.date ymd => some ymd
  | Cell.str s =>
      let t := pyStrip s
      match tryDayFirst '-' t.toList with
      | some out => some (String.mk out)
      | none =>
          match tryDayFirst '/' t.toList with
          | some out => some (String.mk out)
          | none => P.parseDateStr t
  | Cell.num x => P.parseDateNum x

/-- `ExcelToCSVProcessor.normalize_lot_number` (src/app.py lines 80-84):
`None` for NaN / `""` / `None`, otherwise `str(value).strip()`. -/
def normalize_lot_number (P : Prims) : Cell → Option String
  | Cell.blank => none
  | Cell.str s => if s = "" then none else some (pyStrip s)
  | Cell.num x => some (pyStrip (P.strOfNum x))
  | Cell.date ymd => some (pyStrip ymd)

/-- Round-half-even to an integer (Python `round` tie behaviour). -/
def roundHalfEven (x : Rat) : Int :=
  let f := ⌊x⌋
  let frac := x - f
  if frac < 1/2 then f
  else if 1/2 < frac then f + 1
  else if f % 2 = 0 then f else f + 1

/-- Python `round(x, 4)` on our rational model of floats. -/
def roundTo4 (x : Rat) : Rat := (roundHalfEven (x * 10000) : Rat) / 10000

/-- Truncation toward zero, Python `int(float)`. -/
def ratTrunc (x : Rat) : Int := x.num.tdiv x.den

/-- `ExcelToCSVProcessor.normalize_numeric` (src/app.py lines 86-98):
default for blank/empty/unparseable, else the float value, collapsed to its
integer when integral, otherwise rounded to 4 fractional digits. `float` of
a datetime raises `TypeError`, caught into the default. -/
def normalize_numeric (P : Prims) (v : Cell) (default : Rat) : Rat :=
  match v with
  | Cell.blank => default
  | Cell.str s =>
      if s = "" then default
      else
        match P.floatOfStr s with
        | some x => if x.den = 1 then x else roundTo4 x
        | none => default
  | Cell.num x => if x.den = 1 then x else roundTo4 x
  | Cell.date _ => default

/-- `ExcelToCSVProcessor.normalize_integer` (src/app.py lines 100-109):
default for blank/empty/unparseable, else `int(float(value))` (truncation). -/
def normalize_integer (P : Prims) (v : Cell) (default : Option Int) : Option Int :=
  match v with
  | Cell.blank => default
  | Cell.str s =>
      if s = "" then default
      else
        match P.floatOfStr s with
        | some x => some (ratTrunc x)
        | none => default
  | Cell.num x => some (ratTrunc x)
  | Cell.date _ => default

/-- A lot entity, as built by `add_lot`. -/
structure Lot where
  lot_id : Nat
  lot_number : String
  lot_weight : Rat
  status : String
deriving DecidableEq, Repr

/-- A processing record, as built by `process_sheet`. -/
structure Record where
  record_id : Nat
  lot_id : Nat
  lot_number : String
  stage : String
  process_date : String
  given_pieces : Option Int
  given_weight : Rat
  received_pieces : Option Int
  received_weight : Rat
deriving DecidableEq, Repr

/-- The processor's mutable state: the fresh-identifier counter, the
`lots_dict` mapping (insertion-ordered association list keyed by
`lot_number`), and the `results` fields. -/
structure State where
  nextId : Nat
  lots_dict : List (String × Lot)
  lots_data : List Lot
  records : List Record
  errors : List String
  validation_issues : List String
  sheets_processed : List String
deriving DecidableEq, Repr

/-- `ExcelToCSVProcessor.__init__`: empty results, empty lot map. -/
def initState : State :=
  { nextId := 0, lots_dict := [], lots_data := [], records := [],
    errors := [], validation_issues := [], sheets_processed := [] }

/-- Lookup in `lots_dict` (Python `lot_number in self.lots_dict` /
`self.lots_dict[lot_number]`). -/
def lookupLot (dict : List (String × Lot)) (ln : String) : Option Lot :=
  (dict.find? (fun p => p.1 = ln)).map (·.2)

/-- The weight-update loop of `add_lot` over `results['lots_data']`:
update the first entry with matching `lot_number`, then `break`. -/
def updateFirst (data : List Lot) (ln : String) (w : Rat) : List Lot :=
  match data with
  | [] => []
  | l :: ls =>
      if l.lot_number = ln then { l with lot_weight := w } :: ls
      else l :: updateFirst ls ln w

/-- The in-place mutation of the dict entry for `ln` (it is the same Python
object for all occurrences of the key, so every entry with that key changes). -/
def updateDict (dict : List (String × Lot)) (ln : String) (w : Rat) :
    List (String × Lot) :=
  dict.map (fun p => if p.1 = ln then (p.1, { p.2 with lot_weight := w }) else p)

/-- `ExcelToCSVProcessor.add_lot` (src/app.py lines 111-133): create a fresh
lot on first sight of a `lot_number` and append it to `lots_data`; on repeat
sight, overwrite the stored weight when it differs (in the dict entry and in
the first matching `lots_data` entry) and return the existing identifier. -/
def add_lot (st : State) (ln : String) (lw : Rat) : State × Nat :=
  match lookupLot st.lots_dict ln with
  | none =>
      let lid := st.nextId
      let lot : Lot := { lot_id := lid, lot_number := ln, lot_weight := lw,
                         status := "active" }
      ({ st with nextId := st.nextId + 1,
                 lots_dict := st.lots_dict ++ [(ln, lot)],
                 lots_data := st.lots_data ++ [lot] }, lid)
  | some lot =>
      if lot.lot_weight ≠ lw then
        ({ st with lots_dict := updateDict st.lots_dict ln lw,
                   lots_data := updateFirst st.lots_data ln lw }, lot.lot_id)
      else (st, lot.lot_id)

/-- `ExcelToCSVProcessor.get_lot_id_by_lot_number` (src/app.py lines 135-139). -/
def get_lot_id_by_lot_number (st : State) (ln : String) : Option Nat :=
  (lookupLot st.lots_dict ln).map (·.lot_id)

/-- `row.iloc[i]` where the caller guarantees `i < len(row)`. -/
def getCell (row : List Cell) (i : Nat) : Cell := row.getD i Cell.blank

/-- The blank-row test at src/app.py line 151:
`pd.isna(row.iloc[0]) or row.iloc[0] == ""`. -/
def blankFirst : Cell → Bool
  | Cell.blank => true
  | Cell.str s => s = ""
  | _ => false

/-- Python truthiness test `not x` on an optional string (`None` and `""`
are falsy). -/
def falsyS : Option String → Bool
  | none => true
  | some s => s = ""

/-- The error message recorded by the `except` branch of `process_sheet`
(src/app.py lines 195-198); the exception text itself is abstracted. -/
def rowErrorMsg (excelRow : Nat) (stage : String) : String :=
  s!"Error processing row {excelRow} in {stage}"

/-- Append a caught row-level error (src/app.py line 197). -/
def pushError (st : State) (idx : Nat) (stage : String) : State :=
  { st with errors := st.errors ++ [rowErrorMsg (idx + 2) stage] }

/-- The given-pieces extraction of `process_sheet` (src/app.py lines 162-174):
`None` for the CUT stage, otherwise `normalize_integer` of column 3 (or of
`None` when the row is shorter). -/
def rowGivenPieces (P : Prims) (stage : String) (row : List Cell) : Option Int :=
  if stage = "CUT" then none
  else normalize_integer P (if 3 < row.length then getCell row 3 else Cell.blank) none

/-- The given-weight extraction: `0.0` for the CUT stage, otherwise
`normalize_numeric` of column 4 (or of `0`). -/
def rowGivenWeight (P : Prims) (stage : String) (row : List Cell) : Rat :=
  if stage = "CUT" then 0
  else normalize_numeric P (if 4 < row.length then getCell row 4 else Cell.num 0) 0

/-- The received-pieces extraction: `normalize_integer` of column 5. -/
def rowReceivedPieces (P : Prims) (row : List Cell) : Option Int :=
  normalize_integer P (if 5 < row.length then getCell row 5 else Cell.blank) none

/-- The received-weight extraction: `normalize_numeric` of column 6. -/
def rowReceivedWeight (P : Prims) (row : List Cell) : Rat :=
  normalize_numeric P (if 6 < row.length then getCell row 6 else Cell.num 0) 0

/-- The emitting tail of the row loop (src/app.py lines 176-193): resolve
the lot through `add_lot`, then append one `ProcessingRecord` carrying a
fresh `record_id` and the resolved `lot_id`. -/
def emitRow (P : Prims) (stage : String) (st : State) (row : List Cell) : State :=
  let lnv := (normalize_lot_number P (getCell row 1)).getD ""
  let res := add_lot st lnv (normalize_numeric P (getCell row 2) 0)
  { res.1 with
    nextId := res.1.nextId + 1,
    records := res.1.records ++
      [{ record_id := res.1.nextId, lot_id := res.2, lot_number := lnv,
         stage := stage,
         process_date := (normalize_date P (getCell row 0)).getD "",
         given_pieces := rowGivenPieces P stage row,
         given_weight := rowGivenWeight P stage row,
         received_pieces := rowReceivedPieces P row,
         received_weight := rowReceivedWeight P row }] }

/-- One iteration of the row loop in `ExcelToCSVProcessor.process_sheet`
(src/app.py lines 148-198). A row with fewer than three cells whose first
cell is non-blank raises `IndexError` at `row.iloc[1]`/`row.iloc[2]`, caught
by the `except` branch which records an error; a blank first cell skips the
row; a date or lot number that normalizes to a falsy value skips the row
silently; otherwise a record is emitted. -/
def processRow (P : Prims) (stage : String) (idx : Nat) (st : State)
    (row : List Cell) : State :=
  if row.length = 0 then pushError st idx stage
  else if blankFirst (getCell row 0) then st
  else if row.length ≤ 2 then pushError st idx stage
  else if falsyS (normalize_date P (getCell row 0)) ∨
            falsyS (normalize_lot_number P (getCell row 1)) then st
  else emitRow P stage st row

/-- The row loop of `process_sheet`, rows enumerated from index `idx`. -/
def processRows (P : Prims) (stage : String) (st : State) (idx : Nat) :
    List (List Cell) → State
  | [] => st
  | row :: rest => processRows P stage (processRow P stage idx st row) (idx + 1) rest

/-- `ExcelToCSVProcessor.process_sheet` (src/app.py lines 141-204): process
every row, then append the stage to `sheets_processed`. -/
def process_sheet (P : Prims) (stage : String) (rows : List (List Cell))
    (st : State) : State :=
  let st1 := processRows P stage st 0 rows
  { st1 with sheets_processed := st1.sheets_processed ++ [stage] }

/-- `lot_ids_in_processing - lot_ids_in_lots` (src/app.py line 217): the
record-referenced identifiers absent from the lots, as a deduplicated list
(Python builds sets). -/
def orphanedIds (st : State) : List Nat :=
  ((st.records.map Record.lot_id).dedup).filter
    (fun i => !((st.lots_data.map Lot.lot_id).dedup).contains i)

/-- `lot_ids_in_lots - lot_ids_in_processing` (src/app.py line 226): the lot
identifiers never referenced by a record. -/
def unusedIds (st : State) : List Nat :=
  ((st.lots_data.map Lot.lot_id).dedup).filter
    (fun i => !((st.records.map Record.lot_id).dedup).contains i)

/-- The informational issue text of src/app.py line 229. -/
def unusedMsg (n : Nat) : String :=
  s!"Found {n} lots with no processing records"

/-- The fatal issue text of src/app.py line 221. -/
def orphanedMsg (n : Nat) : String :=
  s!"Found {n} processing records with lot_ids not in lots table"

/-- `ExcelToCSVProcessor.validate_data_integrity` (src/app.py lines 206-233):
fail (return `false`, record an issue) when some record references a
`lot_id` absent from the lots; otherwise report unused lots as an
informational issue and return `true`. -/
def validate_data_integrity (st : State) : State × Bool :=
  if (orphanedIds st).isEmpty then
    if (unusedIds st).isEmpty then (st, true)
    else
      ({ st with validation_issues := st.validation_issues ++
           [unusedMsg (unusedIds st).length] }, true)
  else
    ({ st with validation_issues := st.validation_issues ++
         [orphanedMsg (orphanedIds st).length] }, false)

/-- The four processing sheets and their stage tags
(`ExcelToCSVProcessor.sheet_mapping`, src/app.py lines 18-23). -/
def sheet_mapping : List (String × String) :=
  [("CUT SHEET", "CUT"), ("GHAT SHEET", "GHAT"),
   ("MM SHEET", "MM"), ("POLISH SHEET", "POLISH")]

/-- A workbook: the present sheets, by name. -/
structure Workbook where
  sheets : List (String × List (List Cell))

/-- `df.dropna(how=all)` (src/app.py line 253): remove the rows whose every
cell is missing. -/
def dropAllNa (rows : List (List Cell)) : List (List Cell) :=
  rows.filter (fun r => !(r.all isNa))

/-- The sheet loop of `ExcelToCSVProcessor.process_excel_file`
(src/app.py lines 244-262): process each of the four named sheets that is
present in the workbook, in the fixed mapping order. -/
def extractAll (P : Prims) (wb : Workbook) : State :=
  sheet_mapping.foldl
    (fun st nmStage =>
      match wb.sheets.find? (fun p => p.1 = nmStage.1) with
      | some sh => process_sheet P nmStage.2 (dropAllNa sh.2) st
      | none => st)
    initState

/-- `ExcelToCSVProcessor.process_excel_file` (src/app.py lines 235-276):
extraction over all sheets followed by integrity validation; the boolean is
the run verdict. -/
def process_excel_file (P : Prims) (wb : Workbook) : State × Bool :=
  validate_data_integrity (extractAll P wb)

/-- Lots ordering used by `lots_df.sort_values(lot_number)`. -/
def lotLE (a b : Lot) : Prop := a.lot_number ≤ b.lot_number

/-- Records ordering used by
`processing_df.sort_values([process_date, stage])`: lexicographic on the
`(process_date, stage)` string pair. -/
def recLE (a b : Record) : Prop :=
  a.process_date < b.process_date ∨
    (a.process_date = b.process_date ∧ a.stage ≤ b.stage)

instance : DecidableRel lotLE := fun a b =>
  inferInstanceAs (Decidable (a.lot_number ≤ b.lot_number))

instance : DecidableRel recLE := fun a b =>
  inferInstanceAs (Decidable (a.process_date < b.process_date ∨
    (a.process_date = b.process_date ∧ a.stage ≤ b.stage)))

instance : IsTotal Lot lotLE :=
  ⟨fun a b => le_total a.lot_number b.lot_number⟩

instance : IsTrans Lot lotLE :=
  ⟨fun _ _ _ h1 h2 => le_trans h1 h2⟩

instance : IsTotal Record recLE := by
  constructor
  intro a b
  rcases lt_trichotomy a.process_date b.process_date with h | h | h
  · exact Or.inl (Or.inl h)
  · rcases le_total a.stage b.stage with hs | hs
    · exact Or.inl (Or.inr ⟨h, hs⟩)
    · exact Or.inr (Or.inr ⟨h.symm, hs⟩)
  · exact Or.inr (Or.inl h)

instance : IsTrans Record recLE := by
  constructor
  intro a b c hab hbc
  rcases hab with h1 | ⟨e1, s1⟩
  · rcases hbc with h2 | ⟨e2, _⟩
    · exact Or.inl (h1.trans h2)
    · exact Or.inl (e2 ▸ h1)
  · rcases hbc with h2 | ⟨e2, s2⟩
    · exact Or.inl (e1 ▸ h2)
    · exact Or.inr ⟨e1.trans e2, s1.trans s2⟩

/-- The lots rows sorted by `lot_number` (src/app.py line 288). The pandas
sort is modelled by insertion sort; the claimkeeping fact is sortedness by
the key. -/
def sortedLots (st : State) : List Lot := st.lots_data.insertionSort lotLE

/-- The records sorted by `(process_date, stage)` (src/app.py line 313). -/
def sortedRecords (st : State) : List Record := st.records.insertionSort recLE

/-- Left-pad a string with zeros to the given width. -/
def padZeros (w : Nat) (s : String) : String :=
  if s.length < w then String.mk (List.replicate (w - s.length) '0') ++ s else s

/-- Render a float with `float_format=%.4f`. -/
def fmt4 (x : Rat) : String :=
  let n := roundHalfEven (x * 10000)
  let sign := if n < 0 then "-" else ""
  let m := n.natAbs
  sign ++ toString (m / 10000) ++ "." ++ padZeros 4 (toString (m % 10000))

/-- Render an optional integer column value: `None` becomes the empty field
(src/app.py lines 300-305), a present value its integer text. -/
def optIntField : Option Int → String
  | none => ""
  | some k => toString k

/-- The fixed column order of the records artifact (src/app.py lines 308-309). -/
def recordColumnOrder : List String :=
  ["record_id", "lot_id", "lot_number", "stage", "process_date",
   "given_pieces", "given_weight", "received_pieces", "received_weight"]

/-- One rendered row of `lots.csv`. -/
def renderLot (l : Lot) : List String :=
  [toString l.lot_id, l.lot_number, fmt4 l.lot_weight, l.status]

/-- One rendered row of `processing_records.csv`, in the fixed column order. -/
def renderRecord (r : Record) : List String :=
  [toString r.record_id, toString r.lot_id, r.lot_number, r.stage,
   r.process_date, optIntField r.given_pieces, fmt4 r.given_weight,
   optIntField r.received_pieces, fmt4 r.received_weight]

/-- The `lots.csv` artifact of `generate_csv_files` (src/app.py lines
282-289), as header and rendered rows. -/
def lotsCsv (st : State) : List (List String) :=
  ["lot_id", "lot_number", "lot_weight", "status"] ::
    (sortedLots st).map renderLot

/-- The `processing_records.csv` artifact of `generate_csv_files`
(src/app.py lines 291-314), as header and rendered rows. -/
def recordsCsv (st : State) : List (List String) :=
  recordColumnOrder :: (sortedRecords st).map renderRecord

/-- The per-stage artifact `{stage}_records.csv` (src/app.py lines 316-319):
a filter of the sorted records by stage, same column order. -/
def stageCsv (st : State) (stage : String) : List (List String) :=
  recordColumnOrder ::
    ((sortedRecords st).filter (fun r => r.stage = stage)).map renderRecord

/-- The gating in `main` (src/app.py line 342): CSV artifacts are generated
only when `process_excel_file` returned `True`. -/
def runOutputs (P : Prims) (wb : Workbook) :
    Option (List (List String) × List (List String)) :=
  let res := process_excel_file P wb
  if res.2 then some (lotsCsv res.1, recordsCsv res.1) else none

/-- A fixed instantiation of the abstracted platform primitives, used to
evaluate the model on concrete inputs: the generic date parsers always fail
and `float` on strings always fails, so only the explicitly modelled paths
fire. -/
def stubPrims : Prims :=
  { parseDateStr := fun _ => none, parseDateNum := fun _ => none,
    floatOfStr := fun _ => none, strOfNum := fun x => toString x }

/-! ## Registry lemmas -/

theorem lookupLot_map_pair (data : List Lot) (ln : String) :
    lookupLot (data.map (fun l => (l.lot_number, l))) ln
      = data.find? (fun l => l.lot_number = ln) := by
  unfold lookupLot
  rw [List.find?_map]
  induction data with
  | nil => rfl
  | cons l ls ih =>
      by_cases h : l.lot_number = ln
      · simp [List.find?, Function.comp, h]
      · simpa [List.find?, Function.comp, h] using ih

theorem lookupLot_eq_none (data : List Lot) (ln : String) :
    lookupLot (data.map (fun l => (l.lot_number, l))) ln = none ↔
      ∀ l ∈ data, l.lot_number ≠ ln := by
  rw [lookupLot_map_pair, List.find?_eq_none]
  simp

theorem lookupLot_eq_some (data : List Lot) (ln : String) (lot : Lot)
    (h : lookupLot (data.map (fun l => (l.lot_number, l))) ln = some lot) :
    lot ∈ data ∧ lot.lot_number = ln := by
  rw [lookupLot_map_pair] at h
  exact ⟨List.mem_of_find?_eq_some h, by simpa using List.find?_some h⟩

theorem updateFirst_map_lot_id (data : List Lot) (ln : String) (w : Rat) :
    (updateFirst data ln w).map Lot.lot_id = data.map Lot.lot_id := by
  induction data with
  | nil => rfl
  | cons l ls ih =>
      by_cases h : l.lot_number = ln
      · simp [updateFirst, h]
      · simp [updateFirst, h, ih]

theorem updateFirst_map_lot_number (data : List Lot) (ln : String) (w : Rat) :
    (updateFirst data ln w).map Lot.lot_number = data.map Lot.lot_number := by
  induction data with
  | nil => rfl
  | cons l ls ih =>
      by_cases h : l.lot_number = ln
      · simp [updateFirst, h]
      · simp [updateFirst, h, ih]

theorem mem_updateFirst (data : List Lot) (ln : String) (w : Rat) :
    ∀ l' ∈ updateFirst data ln w,
      l' ∈ data ∨ ∃ l ∈ data, l' = { l with lot_weight := w } := by
  induction data with
  | nil => intro l' h; simp [updateFirst] at h
  | cons l ls ih =>
      intro l' h
      by_cases hl : l.lot_number = ln
      · simp only [updateFirst, if_pos hl, List.mem_cons] at h
        rcases h with h | h
        · exact Or.inr ⟨l, List.mem_cons_self l ls, h⟩
        · exact Or.inl (List.mem_cons_of_mem l h)
      · simp only [updateFirst, if_neg hl, List.mem_cons] at h
        rcases h with h | h
        · exact Or.inl (h ▸ List.mem_cons_self l ls)
        · rcases ih l' h with h' | ⟨l0, hl0, he⟩
          · exact Or.inl (List.mem_cons_of_mem l h')
          · exact Or.inr ⟨l0, List.mem_cons_of_mem l hl0, he⟩

theorem updateDict_of_not_mem (dict : List (String × Lot)) (ln : String)
    (w : Rat) (h : ∀ p ∈ dict, p.1 ≠ ln) : updateDict dict ln w = dict := by
  induction dict with
  | nil => rfl
  | cons p ps ih =>
      have h1 : p.1 ≠ ln := h p (List.mem_cons_self p ps)
      simp only [updateDict, List.map_cons, if_neg h1]
      have := ih (fun q hq => h q (List.mem_cons_of_mem p hq))
      simpa [updateDict] using this

theorem updateDict_map_pair (data : List Lot) (ln : String) (w : Rat)
    (hnd : (data.map Lot.lot_number).Nodup) :
    updateDict (data.map (fun l => (l.lot_number, l))) ln w
      = (updateFirst data ln w).map (fun l => (l.lot_number, l)) := by
  induction data with
  | nil => rfl
  | cons l ls ih =>
      simp only [List.map_cons, List.nodup_cons] at hnd
      by_cases h : l.lot_number = ln
      · have hnotin : ∀ p ∈ ls.map (fun l => (l.lot_number, l)), p.1 ≠ ln := by
          intro p hp
          rcases List.mem_map.mp hp with ⟨l0, hl0, rfl⟩
          intro hc
          apply hnd.1
          rw [← h] at hc
          exact hc ▸ List.mem_map_of_mem Lot.lot_number hl0
        have hid := updateDict_of_not_mem (ls.map (fun l => (l.lot_number, l))) ln w hnotin
        simp only [updateDict] at hid
        simp [updateDict, updateFirst, if_pos h, hid]
      · have hih := ih hnd.2
        simp only [updateDict] at hih
        simp [updateDict, updateFirst, if_neg h, hih]

theorem add_lot_records (st : State) (ln : String) (w : Rat) :
    (add_lot st ln w).1.records = st.records := by
  unfold add_lot
  cases h : lookupLot st.lots_dict ln with
  | none => rfl
  | some lot => by_cases hw : lot.lot_weight ≠ w <;> simp [hw]

theorem lookupLot_updateDict (dict : List (String × Lot)) (ln : String) (w : Rat) :
    lookupLot (updateDict dict ln w) ln
      = (lookupLot dict ln).map (fun l => { l with lot_weight := w }) := by
  induction dict with
  | nil => rfl
  | cons p ps ih =>
      by_cases h : p.1 = ln
      · simp [lookupLot, updateDict, List.find?, h]
      · simp only [lookupLot, updateDict, List.map_cons, if_neg h] at *
        simp only [List.find?, decide_eq_true_eq, if_neg h] at *
        simpa [h] using ih

/-- **C2** — Lot Registry resolve contract: on an unregistered `lot_number`,
`add_lot` creates a new Lot carrying the fresh surrogate identifier and the
given weight and returns that identifier; on a registered `lot_number` it
returns the previously assigned identifier unchanged and the stored weight
ends up equal to the newly observed one (overwritten in place when it
differed, untouched when equal, never averaged), leaving the identifier set
unchanged; in particular a lot seen with weight `10.0` then `10.5` ends with
weight `10.5` and a single identifier. -/
theorem add_lot_resolve_contract (st : State) (ln : String) (w : Rat) :
    (lookupLot st.lots_dict ln = none →
      (add_lot st ln w).2 = st.nextId ∧
      (add_lot st ln w).1.lots_dict =
        st.lots_dict ++ [(ln, ⟨st.nextId, ln, w, "active"⟩)] ∧
      (add_lot st ln w).1.lots_data =
        st.lots_data ++ [⟨st.nextId, ln, w, "active"⟩] ∧
      (add_lot st ln w).1.nextId = st.nextId + 1) ∧
    (∀ lot, lookupLot st.lots_dict ln = some lot →
      (add_lot st ln w).2 = lot.lot_id ∧
      lookupLot (add_lot st ln w).1.lots_dict ln =
        some { lot with lot_weight := w } ∧
      (add_lot st ln w).1.lots_data.map Lot.lot_id =
        st.lots_data.map Lot.lot_id) ∧
    ((add_lot (add_lot initState "L-100" 10).1 "L-100" (21/2)).2 =
        (add_lot initState "L-100" 10).2 ∧
      (add_lot (add_lot initState "L-100" 10).1 "L-100" (21/2)).1.lots_data =
        [⟨0, "L-100", 21/2, "active"⟩]) := by
  refine ⟨?_, ?_, ?_⟩
  · intro h
    simp [add_lot, h]
  · intro lot h
    simp only [add_lot, h]
    by_cases hw : lot.lot_weight = w
    · rw [if_neg (fun hc => hc hw)]
      refine ⟨rfl, ?_, rfl⟩
      rw [h]
      cases lot
      simp_all
    · rw [if_pos hw]
      exact ⟨rfl, by rw [lookupLot_updateDict, h]; rfl,
        updateFirst_map_lot_id st.lots_data ln w⟩
  · have e1 : add_lot initState "L-100" 10 =
        ({ nextId := 1,
           lots_dict := [("L-100", ⟨0, "L-100", 10, "active"⟩)],
           lots_data := [⟨0, "L-100", 10, "active"⟩],
           records := [], errors := [], validation_issues := [],
           sheets_processed := [] }, 0) := by
      simp [add_lot, lookupLot, initState, List.find?]
    have hne : (10 : Rat) ≠ 21/2 := by norm_num
    rw [e1]
    constructor
    · simp [add_lot, lookupLot, List.find?, hne, updateFirst, updateDict]
    · simp [add_lot, lookupLot, List.find?, hne, updateFirst, updateDict]

/-- Witness for C2: resolving a fresh lot number from the initial state
returns identifier `0` and registers the lot. -/
theorem add_lot_resolve_contract_witness :
    (add_lot initState "A" 5).2 = 0 ∧
      (add_lot initState "A" 5).1.lots_data = [⟨0, "A", 5, "active"⟩] := by
  have h := (add_lot_resolve_contract initState "A" 5).1 (by decide)
  exact ⟨h.1, by rw [h.2.2.1]; rfl⟩

/-! ## The run invariant -/

theorem normalize_numeric_four_digits (P : Prims) (v : Cell) (d : Rat)
    (hd : ∃ n : Int, d = (n : Rat) / 10000) :
    ∃ n : Int, normalize_numeric P v d = (n : Rat) / 10000 := by
  have hcollapse : ∀ x : Rat,
      ∃ n : Int, (if x.den = 1 then x else roundTo4 x) = (n : Rat) / 10000 := by
    intro x
    by_cases hden : x.den = 1
    · refine ⟨x.num * 10000, ?_⟩
      rw [if_pos hden]
      have hx : (x.num : Rat) = x := by
        conv_rhs => rw [← Rat.num_div_den x]
        rw [hden]
        norm_num
      rw [eq_div_iff (by norm_num : (10000 : Rat) ≠ 0)]
      push_cast
      rw [hx]
    · exact ⟨roundHalfEven (x * 10000), by rw [if_neg hden]; rfl⟩
  rcases v with _ | s | x | ymd
  · exact hd
  · simp only [normalize_numeric]
    by_cases hs : s = ""
    · rw [if_pos hs]; exact hd
    · rw [if_neg hs]
      cases hp : P.floatOfStr s with
      | none => exact hd
      | some x => exact hcollapse x
  · exact hcollapse x
  · exact hd

/-- The state invariant maintained by the extraction phase: surrogate
identifiers stay below the fresh-identifier counter and are pairwise
distinct, lot numbers are pairwise distinct and non-empty, the registry
mapping and the accumulated `lots_data` list agree entry for entry, every
record references an identifier present among the lots, and every stored
weight has at most four fractional digits. -/
structure Inv (st : State) : Prop where
  idsLt : ∀ l ∈ st.lots_data, l.lot_id < st.nextId
  idsNodup : (st.lots_data.map Lot.lot_id).Nodup
  lnNodup : (st.lots_data.map Lot.lot_number).Nodup
  dictData : st.lots_dict = st.lots_data.map (fun l => (l.lot_number, l))
  recordsRef : ∀ r ∈ st.records, r.lot_id ∈ st.lots_data.map Lot.lot_id
  lnNonempty : ∀ l ∈ st.lots_data, l.lot_number ≠ ""
  weight4 : ∀ l ∈ st.lots_data, ∃ n : Int, l.lot_weight = (n : Rat) / 10000

theorem inv_initState : Inv initState := by
  constructor <;> simp [initState]

theorem inv_pushError (st : State) (idx : Nat) (stage : String) (h : Inv st) :
    Inv (pushError st idx stage) :=
  ⟨h.idsLt, h.idsNodup, h.lnNodup, h.dictData, h.recordsRef, h.lnNonempty,
   h.weight4⟩

theorem add_lot_inv (st : State) (ln : String) (lw : Rat) (h : Inv st)
    (hln : ln ≠ "") (hw : ∃ n : Int, lw = (n : Rat) / 10000) :
    Inv (add_lot st ln lw).1 ∧
    (add_lot st ln lw).2 ∈ (add_lot st ln lw).1.lots_data.map Lot.lot_id ∧
    (add_lot st ln lw).1.records = st.records ∧
    (∀ i ∈ st.lots_data.map Lot.lot_id,
        i ∈ (add_lot st ln lw).1.lots_data.map Lot.lot_id) ∧
    st.nextId ≤ (add_lot st ln lw).1.nextId := by
  cases hlk : lookupLot st.lots_dict ln with
  | none =>
      have hnotln : ∀ l ∈ st.lots_data, l.lot_number ≠ ln := by
        rw [h.dictData] at hlk
        exact (lookupLot_eq_none st.lots_data ln).mp hlk
      simp only [add_lot, hlk]
      refine ⟨?_, ?_, trivial, ?_, Nat.le_succ _⟩
      · constructor
        · intro l hl
          rcases List.mem_append.mp hl with hl | hl
          · exact (h.idsLt l hl).trans (Nat.lt_succ_self _)
          · simp only [List.mem_singleton] at hl
            subst hl
            exact Nat.lt_succ_self _
        · rw [List.map_append, List.nodup_append]
          refine ⟨h.idsNodup, List.nodup_singleton _, ?_⟩
          intro i hi hmem
          simp only [List.map_cons, List.map_nil, List.mem_singleton] at hmem
          rcases List.mem_map.mp hi with ⟨l, hl, rfl⟩
          exact absurd hmem (Nat.ne_of_lt (h.idsLt l hl))
        · rw [List.map_append, List.nodup_append]
          refine ⟨h.lnNodup, List.nodup_singleton _, ?_⟩
          intro x hx hmem
          simp only [List.map_cons, List.map_nil, List.mem_singleton] at hmem
          rcases List.mem_map.mp hx with ⟨l, hl, rfl⟩
          exact hnotln l hl hmem
        · rw [h.dictData]
          simp
        · intro r hr
          rw [List.map_append]
          exact List.mem_append_left _ (h.recordsRef r hr)
        · intro l hl
          rcases List.mem_append.mp hl with hl | hl
          · exact h.lnNonempty l hl
          · simp only [List.mem_singleton] at hl
            subst hl
            exact hln
        · intro l hl
          rcases List.mem_append.mp hl with hl | hl
          · exact h.weight4 l hl
          · simp only [List.mem_singleton] at hl
            subst hl
            exact hw
      · rw [List.map_append]
        apply List.mem_append_right
        simp
      · intro i hi
        rw [List.map_append]
        exact List.mem_append_left _ hi
  | some lot =>
      have hlot : lot ∈ st.lots_data ∧ lot.lot_number = ln := by
        rw [h.dictData] at hlk
        exact lookupLot_eq_some st.lots_data ln lot hlk
      have hretmem : ∀ (st' : State),
          st'.lots_data.map Lot.lot_id = st.lots_data.map Lot.lot_id →
          lot.lot_id ∈ st'.lots_data.map Lot.lot_id := by
        intro st' he
        rw [he]
        exact List.mem_map_of_mem Lot.lot_id hlot.1
      simp only [add_lot, hlk]
      by_cases hwne : lot.lot_weight = lw
      · rw [if_neg (fun hc => hc hwne)]
        exact ⟨h, hretmem st rfl, rfl, fun i hi => hi, Nat.le_refl _⟩
      · rw [if_pos hwne]
        have hids := updateFirst_map_lot_id st.lots_data ln lw
        have hlns := updateFirst_map_lot_number st.lots_data ln lw
        refine ⟨?_, hretmem _ hids, rfl, fun i hi => hids ▸ hi, Nat.le_refl _⟩
        constructor
        · intro l hl
          rcases mem_updateFirst st.lots_data ln lw l hl with hl' | ⟨l0, hl0, rfl⟩
          · exact h.idsLt l hl'
          · exact h.idsLt l0 hl0
        · rw [hids]; exact h.idsNodup
        · rw [hlns]; exact h.lnNodup
        · rw [h.dictData]
          exact updateDict_map_pair st.lots_data ln lw h.lnNodup
        · intro r hr
          rw [hids]
          exact h.recordsRef r hr
        · intro l hl
          rcases mem_updateFirst st.lots_data ln lw l hl with hl' | ⟨l0, hl0, rfl⟩
          · exact h.lnNonempty l hl'
          · exact h.lnNonempty l0 hl0
        · intro l hl
          rcases mem_updateFirst st.lots_data ln lw l hl with hl' | ⟨l0, hl0, rfl⟩
          · exact h.weight4 l hl'
          · exact hw

theorem getD_ne_empty_of_not_falsy (o : Option String) (h : falsyS o = false) :
    o.getD "" ≠ "" := by
  cases o with
  | none => simp [falsyS] at h
  | some s =>
      simp only [falsyS, decide_eq_false_iff_not] at h
      simpa using h

theorem emitRow_inv (P : Prims) (stage : String) (st : State) (row : List Cell)
    (h : Inv st)
    (hln : falsyS (normalize_lot_number P (getCell row 1)) = false) :
    Inv (emitRow P stage st row) := by
  obtain ⟨hinv, hmem, hrec, hsub, hle⟩ :=
    add_lot_inv st ((normalize_lot_number P (getCell row 1)).getD "")
      (normalize_numeric P (getCell row 2) 0) h
      (getD_ne_empty_of_not_falsy _ hln)
      (normalize_numeric_four_digits P _ 0 ⟨0, by norm_num⟩)
  unfold emitRow
  constructor
  · intro l hl
    exact (hinv.idsLt l hl).trans (Nat.lt_succ_self _)
  · exact hinv.idsNodup
  · exact hinv.lnNodup
  · exact hinv.dictData
  · intro r hr
    rcases List.mem_append.mp hr with hr | hr
    · exact hinv.recordsRef r hr
    · simp only [List.mem_singleton] at hr
      subst hr
      exact hmem
  · exact hinv.lnNonempty
  · exact hinv.weight4

theorem processRow_inv (P : Prims) (stage : String) (idx : Nat) (st : State)
    (row : List Cell) (h : Inv st) :
    Inv (processRow P stage idx st row) := by
  unfold processRow
  split
  · exact inv_pushError st idx stage h
  split
  · exact h
  split
  · exact inv_pushError st idx stage h
  split
  · exact h
  rename_i hcond
  push_neg at hcond
  exact emitRow_inv P stage st row h
    (by simpa using hcond.2)

theorem processRows_inv (P : Prims) (stage : String) (rows : List (List Cell)) :
    ∀ (st : State) (idx : Nat), Inv st → Inv (processRows P stage st idx rows) := by
  induction rows with
  | nil => intro st idx h; exact h
  | cons row rest ih =>
      intro st idx h
      exact ih _ _ (processRow_inv P stage idx st row h)

theorem process_sheet_inv (P : Prims) (stage : String) (rows : List (List Cell))
    (st : State) (h : Inv st) : Inv (process_sheet P stage rows st) := by
  have h1 := processRows_inv P stage rows st 0 h
  exact ⟨h1.idsLt, h1.idsNodup, h1.lnNodup, h1.dictData, h1.recordsRef,
    h1.lnNonempty, h1.weight4⟩

theorem extractAll_inv (P : Prims) (wb : Workbook) : Inv (extractAll P wb) := by
  unfold extractAll
  have hgen : ∀ (ms : List (String × String)) (st : State), Inv st →
      Inv (ms.foldl
        (fun st nmStage =>
          match wb.sheets.find? (fun p => p.1 = nmStage.1) with
          | some sh => process_sheet P nmStage.2 (dropAllNa sh.2) st
          | none => st) st) := by
    intro ms
    induction ms with
    | nil => intro st h; exact h
    | cons m rest ih =>
        intro st h
        apply ih
        cases hf : wb.sheets.find? (fun p => p.1 = m.1) with
        | none => simpa [hf] using h
        | some sh => simpa [hf] using process_sheet_inv P m.2 (dropAllNa sh.2) st h
  exact hgen sheet_mapping initState inv_initState

theorem countP_map_eq_one (l : List Lot) (a : Nat)
    (hnd : (l.map Lot.lot_id).Nodup) (hmem : a ∈ l.map Lot.lot_id) :
    l.countP (fun x => x.lot_id == a) = 1 := by
  induction l with
  | nil => simp at hmem
  | cons x xs ih =>
      simp only [List.map_cons, List.nodup_cons, List.mem_cons] at hnd hmem
      by_cases hx : x.lot_id = a
      · rw [List.countP_cons_of_pos _ _ (by simpa using hx)]
        have h0 : xs.countP (fun y => y.lot_id == a) = 0 := by
          rw [List.countP_eq_zero]
          intro y hy
          simp only [beq_iff_eq]
          intro hc
          have hmm : y.lot_id ∈ xs.map Lot.lot_id :=
            List.mem_map_of_mem Lot.lot_id hy
          rw [hc, ← hx] at hmm
          exact hnd.1 hmm
        rw [h0]
      · rcases hmem with hmem | hmem
        · exact absurd hmem.symm hx
        · rw [List.countP_cons_of_neg _ _ (by simpa using hx)]
          exact ih hnd.2 hmem

/-- A one-sheet workbook used to evaluate the model at concrete inputs:
one CUT row dated `14-06-2025` for lot `L1` with weight `3`. -/
def wbOne : Workbook :=
  ⟨[("CUT SHEET", [[Cell.str "14-06-2025", Cell.str "L1", Cell.num 3]])]⟩

/-- **C1** — Referential closure: every `ProcessingRecord` emitted during a
run references a `lot_id` carried by exactly one Lot of the same run's
`lots_data` collection. -/
theorem referential_closure (P : Prims) (wb : Workbook) :
    ∀ r ∈ (extractAll P wb).records,
      (extractAll P wb).lots_data.countP (fun l => l.lot_id == r.lot_id) = 1 := by
  intro r hr
  have h := extractAll_inv P wb
  exact countP_map_eq_one _ _ h.idsNodup (h.recordsRef r hr)

/-- Witness for C1 on a concrete one-row workbook. -/
theorem referential_closure_witness :
    (extractAll stubPrims wbOne).lots_data.countP
      (fun l => l.lot_id ==
        ((extractAll stubPrims wbOne).records.getD 0
          ⟨0, 0, "", "", "", none, 0, none, 0⟩).lot_id) = 1 :=
  referential_closure stubPrims wbOne _ (by decide)

/-- **C8** — Lot-number normalization: blank or empty input yields the
distinguished "no value" result, a non-empty string yields its stripped
form, a numeric cell the stripped form of its string rendering; and no lot
of any run carries an empty `lot_number`. -/
theorem lot_number_normalization (P : Prims) (wb : Workbook) (s : String)
    (x : Rat) (hs : s ≠ "") :
    normalize_lot_number P Cell.blank = none ∧
    normalize_lot_number P (Cell.str "") = none ∧
    normalize_lot_number P (Cell.str s) = some (pyStrip s) ∧
    normalize_lot_number P (Cell.num x) = some (pyStrip (P.strOfNum x)) ∧
    (∀ l ∈ (extractAll P wb).lots_data, l.lot_number ≠ "") := by
  refine ⟨rfl, rfl, ?_, rfl, (extractAll_inv P wb).lnNonempty⟩
  simp [normalize_lot_number, hs]

/-- Witness for C8 at the non-empty string `" A "`. -/
theorem lot_number_normalization_witness :
    normalize_lot_number stubPrims (Cell.str " A ") = some (pyStrip " A ") :=
  (lot_number_normalization stubPrims wbOne " A " 0 (by decide)).2.2.1

/-- **C9 (amended)** — every Lot's `lot_weight` is an integer multiple of
`1/10000` (at most four fractional digits, integral values collapsed); the
sign of the input is preserved, so non-negativity is not guaranteed. -/
theorem lot_weight_four_digits (P : Prims) (wb : Workbook) :
    ∀ l ∈ (extractAll P wb).lots_data,
      ∃ n : Int, l.lot_weight = (n : Rat) / 10000 :=
  (extractAll_inv P wb).weight4

/-- Witness for the amended C9 on the concrete one-row workbook. -/
theorem lot_weight_four_digits_witness :
    ∃ n : Int,
      ((extractAll stubPrims wbOne).lots_data.getD 0
        ⟨0, "", 0, ""⟩).lot_weight = (n : Rat) / 10000 :=
  lot_weight_four_digits stubPrims wbOne _ (by decide)

/-- A workbook whose single CUT row carries the negative lot-weight cell
`-2`. -/
def wbNeg : Workbook :=
  ⟨[("CUT SHEET", [[Cell.str "14-06-2025", Cell.str "L1", Cell.num (-2)]])]⟩

/-- Counterexample to C9 as stated: a run over a row whose lot-weight cell
is `-2` produces a Lot whose `lot_weight` is `-2`, which is negative — the
code never enforces non-negativity. -/
theorem negative_weight_counterexample :
    (extractAll stubPrims wbNeg).lots_data.map Lot.lot_weight = [-2] ∧
    ((-2 : Rat) < 0) := by
  exact ⟨by decide, by decide⟩

/-! ## Registry store consistency over arbitrary call sequences -/

/-- A sequence of `add_lot` calls (the Registry viewed in isolation). -/
def runAddLots (st : State) : List (String × Rat) → State
  | [] => st
  | c :: rest => runAddLots (add_lot st c.1 c.2).1 rest

/-- First-occurrence deduplication of a key sequence, relative to the keys
already `seen`. -/
def firstOccurNew (seen : List String) : List String → List String
  | [] => []
  | x :: xs =>
      if x ∈ seen then firstOccurNew seen xs
      else x :: firstOccurNew (x :: seen) xs

/-- The part of the invariant that `add_lot` maintains unconditionally:
distinct lot numbers, and agreement between the mapping and the list. -/
structure RegInv (st : State) : Prop where
  lnNodup : (st.lots_data.map Lot.lot_number).Nodup
  dictData : st.lots_dict = st.lots_data.map (fun l => (l.lot_number, l))

theorem lookupLot_none_iff (st : State)
    (h : st.lots_dict = st.lots_data.map (fun l => (l.lot_number, l)))
    (ln : String) :
    lookupLot st.lots_dict ln = none ↔
      ln ∉ st.lots_data.map Lot.lot_number := by
  rw [h, lookupLot_eq_none]
  constructor
  · intro ha hc
    rcases List.mem_map.mp hc with ⟨l, hl, he⟩
    exact ha l hl he
  · intro ha l hl hc
    exact ha (hc ▸ List.mem_map_of_mem Lot.lot_number hl)

theorem add_lot_regInv (st : State) (ln : String) (w : Rat) (h : RegInv st) :
    RegInv (add_lot st ln w).1 ∧
    (add_lot st ln w).1.lots_data.map Lot.lot_number
      = (if ln ∈ st.lots_data.map Lot.lot_number
         then st.lots_data.map Lot.lot_number
         else st.lots_data.map Lot.lot_number ++ [ln]) := by
  cases hlk : lookupLot st.lots_dict ln with
  | none =>
      have hnot : ln ∉ st.lots_data.map Lot.lot_number :=
        (lookupLot_none_iff st h.dictData ln).mp hlk
      simp only [add_lot, hlk]
      rw [if_neg hnot]
      refine ⟨⟨?_, ?_⟩, by simp⟩
      · rw [List.map_append, List.nodup_append]
        refine ⟨h.lnNodup, by simp, ?_⟩
        intro x hx hmem
        simp only [List.map_cons, List.map_nil, List.mem_singleton] at hmem
        subst hmem
        exact hnot hx
      · rw [h.dictData]
        simp
  | some lot =>
      have hmem : ln ∈ st.lots_data.map Lot.lot_number := by
        rw [h.dictData] at hlk
        obtain ⟨hl, hn⟩ := lookupLot_eq_some st.lots_data ln lot hlk
        exact hn ▸ List.mem_map_of_mem Lot.lot_number hl
      simp only [add_lot, hlk]
      rw [if_pos hmem]
      by_cases hw : lot.lot_weight = w
      · rw [if_neg (fun hc => hc hw)]
        exact ⟨h, rfl⟩
      · rw [if_pos hw]
        refine ⟨⟨?_, ?_⟩, updateFirst_map_lot_number st.lots_data ln w⟩
        · rw [updateFirst_map_lot_number]
          exact h.lnNodup
        · rw [h.dictData]
          exact updateDict_map_pair st.lots_data ln w h.lnNodup

theorem firstOccurNew_congr (l : List String) :
    ∀ s1 s2, (∀ x, x ∈ s1 ↔ x ∈ s2) →
      firstOccurNew s1 l = firstOccurNew s2 l := by
  induction l with
  | nil => intro s1 s2 _; rfl
  | cons x xs ih =>
      intro s1 s2 h
      by_cases hx : x ∈ s1
      · rw [firstOccurNew, firstOccurNew, if_pos hx, if_pos ((h x).mp hx)]
        exact ih s1 s2 h
      · rw [firstOccurNew, firstOccurNew, if_neg hx,
            if_neg (fun hc => hx ((h x).mpr hc))]
        congr 1
        apply ih
        intro y
        simp [h y]

theorem runAddLots_spec (calls : List (String × Rat)) :
    ∀ st : State, RegInv st →
      RegInv (runAddLots st calls) ∧
      (runAddLots st calls).lots_data.map Lot.lot_number
        = st.lots_data.map Lot.lot_number ++
          firstOccurNew (st.lots_data.map Lot.lot_number) (calls.map Prod.fst) := by
  induction calls with
  | nil =>
      intro st h
      exact ⟨h, by simp [runAddLots, firstOccurNew]⟩
  | cons c rest ih =>
      intro st h
      obtain ⟨h1, h2⟩ := add_lot_regInv st c.1 c.2 h
      obtain ⟨h3, h4⟩ := ih (add_lot st c.1 c.2).1 h1
      by_cases hmem : c.1 ∈ st.lots_data.map Lot.lot_number
      · rw [if_pos hmem] at h2
        refine ⟨h3, ?_⟩
        show (runAddLots (add_lot st c.1 c.2).1 rest).lots_data.map Lot.lot_number = _
        rw [h4, h2]
        simp only [List.map_cons, firstOccurNew, if_pos hmem]
      · rw [if_neg hmem] at h2
        refine ⟨h3, ?_⟩
        show (runAddLots (add_lot st c.1 c.2).1 rest).lots_data.map Lot.lot_number = _
        rw [h4, h2]
        simp only [List.map_cons, firstOccurNew, if_neg hmem]
        rw [List.append_assoc]
        congr 1
        rw [List.singleton_append]
        congr 1
        apply firstOccurNew_congr
        intro x
        simp [or_comm]

theorem find?_lot_number_of_nodup (data : List Lot) (l : Lot)
    (hnd : (data.map Lot.lot_number).Nodup) (hl : l ∈ data) :
    data.find? (fun x => x.lot_number = l.lot_number) = some l := by
  induction data with
  | nil => simp at hl
  | cons x xs ih =>
      simp only [List.map_cons, List.nodup_cons] at hnd
      rcases List.mem_cons.mp hl with rfl | hl'
      · simp [List.find?]
      · have hne : x.lot_number ≠ l.lot_number := by
          intro hc
          exact hnd.1 (hc ▸ List.mem_map_of_mem Lot.lot_number hl')
        rw [List.find?_cons_of_neg _ (by simpa using hne)]
        exact ih hnd.2 hl'

/-- **C10** — Registry internal-store consistency: after any sequence of
`add_lot` calls, `lots_data` lists exactly one entry per distinct
`lot_number`, in first-occurrence order; the entries of the `lots_dict`
mapping are exactly the `lots_data` entries keyed by their lot numbers, so
every listed entry carries the same field values as the mapping's entry —
in particular a weight overwrite by a later sighting is reflected in the
already-appended list entry used for serialization. -/
theorem registry_store_consistency (calls : List (String × Rat)) :
    (runAddLots initState calls).lots_data.map Lot.lot_number
        = firstOccurNew [] (calls.map Prod.fst) ∧
    ((runAddLots initState calls).lots_data.map Lot.lot_number).Nodup ∧
    (runAddLots initState calls).lots_dict
        = (runAddLots initState calls).lots_data.map (fun l => (l.lot_number, l)) ∧
    (∀ l ∈ (runAddLots initState calls).lots_data,
        lookupLot (runAddLots initState calls).lots_dict l.lot_number = some l) := by
  obtain ⟨hreg, hmap⟩ :=
    runAddLots_spec calls initState ⟨by simp [initState], rfl⟩
  refine ⟨?_, hreg.lnNodup, hreg.dictData, ?_⟩
  · simpa [initState] using hmap
  · intro l hl
    rw [hreg.dictData, lookupLot_map_pair]
    exact find?_lot_number_of_nodup _ l hreg.lnNodup hl

/-- Witness for C10: after the calls `A:1, B:2, A:3` the first listed
entry is found unchanged in the registry mapping. -/
theorem registry_store_consistency_witness :
    lookupLot (runAddLots initState [("A", 1), ("B", 2), ("A", 3)]).lots_dict
      ((runAddLots initState [("A", 1), ("B", 2), ("A", 3)]).lots_data.getD 0
        ⟨0, "", 0, ""⟩).lot_number
      = some ((runAddLots initState [("A", 1), ("B", 2), ("A", 3)]).lots_data.getD 0
        ⟨0, "", 0, ""⟩) :=
  (registry_store_consistency [("A", 1), ("B", 2), ("A", 3)]).2.2.2 _ (by decide)

/-! ## The integrity validator -/

theorem orphanedIds_isEmpty_iff (st : State) :
    (orphanedIds st).isEmpty = true ↔
      ∀ r ∈ st.records, r.lot_id ∈ st.lots_data.map Lot.lot_id := by
  unfold orphanedIds
  rw [List.isEmpty_iff, List.filter_eq_nil_iff]
  constructor
  · intro h r hr
    have hm := h r.lot_id
      (List.mem_dedup.mpr (List.mem_map_of_mem Record.lot_id hr))
    simpa using hm
  · intro h i hi
    rcases List.mem_map.mp (List.mem_dedup.mp hi) with ⟨r, hr, rfl⟩
    simpa using h r hr

theorem validate_snd (st : State) :
    (validate_data_integrity st).2 = (orphanedIds st).isEmpty := by
  unfold validate_data_integrity
  by_cases ho : (orphanedIds st).isEmpty <;>
    by_cases hu : (unusedIds st).isEmpty <;> simp [ho, hu]

theorem validate_fst_lots (st : State) :
    (validate_data_integrity st).1.lots_data = st.lots_data ∧
    (validate_data_integrity st).1.records = st.records := by
  unfold validate_data_integrity
  by_cases ho : (orphanedIds st).isEmpty <;>
    by_cases hu : (unusedIds st).isEmpty <;> simp [ho, hu]

/-- **C3** — Integrity validation verdict: the validator fails exactly when
some record references a `lot_id` absent from the Lot collection; it never
mutates the collections (no auto-repair); when no orphan exists the verdict
is passing, and lots never referenced by a record merely append one
informational issue to the diagnostics; and a failing verdict makes the run
produce no output artifacts. -/
theorem validation_verdict (st : State) (P : Prims) (wb : Workbook) :
    ((validate_data_integrity st).2 = false ↔
        ∃ r ∈ st.records, r.lot_id ∉ st.lots_data.map Lot.lot_id) ∧
    (validate_data_integrity st).1.lots_data = st.lots_data ∧
    (validate_data_integrity st).1.records = st.records ∧
    ((∀ r ∈ st.records, r.lot_id ∈ st.lots_data.map Lot.lot_id) →
      (validate_data_integrity st).2 = true ∧
      ((∃ l ∈ st.lots_data, l.lot_id ∉ st.records.map Record.lot_id) →
        (validate_data_integrity st).1.validation_issues.length
          = st.validation_issues.length + 1)) ∧
    ((process_excel_file P wb).2 = false → runOutputs P wb = none) := by
  refine ⟨?_, (validate_fst_lots st).1, (validate_fst_lots st).2, ?_, ?_⟩
  · rw [validate_snd, Bool.eq_false_iff, ne_eq, orphanedIds_isEmpty_iff]
    push_neg
    rfl
  · intro h
    have ho : (orphanedIds st).isEmpty = true :=
      (orphanedIds_isEmpty_iff st).mpr h
    refine ⟨by rw [validate_snd, ho], ?_⟩
    rintro ⟨l, hl, hnot⟩
    have hmem : l.lot_id ∈ unusedIds st := by
      unfold unusedIds
      rw [List.mem_filter]
      refine ⟨List.mem_dedup.mpr (List.mem_map_of_mem Lot.lot_id hl), ?_⟩
      simpa using hnot
    have hu : (unusedIds st).isEmpty ≠ true := by
      intro hc
      rw [List.isEmpty_iff] at hc
      rw [hc] at hmem
      simp at hmem
    unfold validate_data_integrity
    rw [if_pos ho, if_neg hu]
    simp
  · intro h
    simp [runOutputs, h]

/-- Witness for C3: a state holding one lot and one record that references
it passes validation. -/
theorem validation_verdict_witness :
    (validate_data_integrity (extractAll stubPrims wbOne)).2 = true :=
  (((validation_verdict (extractAll stubPrims wbOne) stubPrims wbOne).2.2.2.1)
    (by decide)).1

/-! ## Row extraction rules -/

theorem emitRow_mem_records (P : Prims) (stage : String) (st : State)
    (row : List Cell) :
    ∀ r ∈ (emitRow P stage st row).records,
      r ∈ st.records ∨
        (r.given_pieces = rowGivenPieces P stage row ∧
         r.given_weight = rowGivenWeight P stage row ∧
         r.received_pieces = rowReceivedPieces P row ∧
         r.received_weight = rowReceivedWeight P row ∧
         r.stage = stage) := by
  intro r hr
  simp only [emitRow] at hr
  rw [add_lot_records] at hr
  rcases List.mem_append.mp hr with h | h
  · exact Or.inl h
  · simp only [List.mem_singleton] at h
    subst h
    exact Or.inr ⟨rfl, rfl, rfl, rfl, rfl⟩

theorem processRow_mem_records (P : Prims) (stage : String) (idx : Nat)
    (st : State) (row : List Cell) :
    ∀ r ∈ (processRow P stage idx st row).records,
      r ∈ st.records ∨
        (r.given_pieces = rowGivenPieces P stage row ∧
         r.given_weight = rowGivenWeight P stage row ∧
         r.received_pieces = rowReceivedPieces P row ∧
         r.received_weight = rowReceivedWeight P row ∧
         r.stage = stage) := by
  intro r hr
  unfold processRow at hr
  split at hr
  · exact Or.inl hr
  split at hr
  · exact Or.inl hr
  split at hr
  · exact Or.inl hr
  split at hr
  · exact Or.inl hr
  exact emitRow_mem_records P stage st row r hr

/-- **C5** — CUT-stage given-side rule: every record emitted from a row
processed under the CUT stage has `given_pieces` absent and `given_weight`
zero, whatever the given-column positions hold; under any other stage the
given columns are read normally (`normalize_integer` of column 3,
`normalize_numeric` of column 4). -/
theorem cut_stage_given_rule (P : Prims) (stage : String) (idx : Nat)
    (st : State) (row : List Cell) :
    (∀ r ∈ (processRow P "CUT" idx st row).records,
        r ∈ st.records ∨ (r.given_pieces = none ∧ r.given_weight = 0)) ∧
    (stage ≠ "CUT" →
      ∀ r ∈ (processRow P stage idx st row).records,
        r ∈ st.records ∨
          (r.given_pieces =
              normalize_integer P
                (if 3 < row.length then getCell row 3 else Cell.blank) none ∧
           r.given_weight =
              normalize_numeric P
                (if 4 < row.length then getCell row 4 else Cell.num 0) 0)) := by
  constructor
  · intro r hr
    rcases processRow_mem_records P "CUT" idx st row r hr with h | ⟨h1, h2, _⟩
    · exact Or.inl h
    · refine Or.inr ⟨?_, ?_⟩
      · rw [h1]
        simp [rowGivenPieces]
      · rw [h2]
        simp [rowGivenWeight]
  · intro hst r hr
    rcases processRow_mem_records P stage idx st row r hr with h | ⟨h1, h2, _⟩
    · exact Or.inl h
    · refine Or.inr ⟨?_, ?_⟩
      · rw [h1]
        simp [rowGivenPieces, hst]
      · rw [h2]
        simp [rowGivenWeight, hst]

/-- Witness for C5: the concrete CUT row `["14-06-2025", "L1", 3]` emits
its record with the given side absent/zero. -/
theorem cut_stage_given_rule_witness :
    ((extractAll stubPrims wbOne).records.getD 0
        ⟨0, 0, "", "", "", none, 0, none, 0⟩) ∈
      (processRow stubPrims "CUT" 0 initState
        [Cell.str "14-06-2025", Cell.str "L1", Cell.num 3]).records ∧
    (((extractAll stubPrims wbOne).records.getD 0
        ⟨0, 0, "", "", "", none, 0, none, 0⟩) ∈ initState.records ∨
      (((extractAll stubPrims wbOne).records.getD 0
          ⟨0, 0, "", "", "", none, 0, none, 0⟩).given_pieces = none ∧
        ((extractAll stubPrims wbOne).records.getD 0
          ⟨0, 0, "", "", "", none, 0, none, 0⟩).given_weight = 0)) :=
  ⟨by decide,
    (cut_stage_given_rule stubPrims "GHAT" 0 initState
      [Cell.str "14-06-2025", Cell.str "L1", Cell.num 3]).1 _ (by decide)⟩

/-- Counterexample to C6 as stated: the row `["garbage", "L1", 5, 1]` has a
non-blank first cell, a date that fails to normalize and further non-blank
content, yet no soft error is recorded: the state is unchanged and the
diagnostics list stays empty (src/app.py lines 159-160 silently `continue`
for every such row). -/
theorem silent_skip_counterexample :
    processRow stubPrims "CUT" 0 initState
        [Cell.str "garbage", Cell.str "L1", Cell.num 5, Cell.num 1]
      = initState ∧
    (processRow stubPrims "CUT" 0 initState
        [Cell.str "garbage", Cell.str "L1", Cell.num 5, Cell.num 1]).errors
      = [] :=
  ⟨by decide, by decide⟩

/-- **C6 (amended)** — every row of three or more cells whose date or lot
number normalizes to a falsy value is skipped silently, leaving the state
(including the diagnostics list) unchanged, regardless of any other
non-blank content; the diagnostics list records an error — identifying row
index and stage — only for rows that raise an exception, i.e. non-blank
rows with fewer than three cells. -/
theorem row_skip_and_error_rule (P : Prims) (stage : String) (idx : Nat)
    (st : State) (row : List Cell) :
    (2 < row.length →
      (falsyS (normalize_date P (getCell row 0)) = true ∨
        falsyS (normalize_lot_number P (getCell row 1)) = true) →
      processRow P stage idx st row = st) ∧
    (row.length ≠ 0 → row.length ≤ 2 → blankFirst (getCell row 0) = false →
      (processRow P stage idx st row).errors
        = st.errors ++ [rowErrorMsg (idx + 2) stage]) := by
  constructor
  · intro hlen hfalsy
    unfold processRow
    rw [if_neg (by omega : ¬ row.length = 0)]
    by_cases hb : blankFirst (getCell row 0)
    · rw [if_pos hb]
    · rw [if_neg hb, if_neg (by omega : ¬ row.length ≤ 2), if_pos hfalsy]
  · intro h0 h2 hb
    unfold processRow
    rw [if_neg h0, if_neg (by rw [hb]; exact Bool.false_ne_true), if_pos h2]
    rfl

/-- Witness for the amended C6: the silently skipped row above, and an
error-recording short row. -/
theorem row_skip_and_error_rule_witness :
    processRow stubPrims "CUT" 0 initState
        [Cell.str "garbage", Cell.str "L1", Cell.num 5, Cell.num 1]
      = initState ∧
    (processRow stubPrims "MM" 3 initState [Cell.str "x", Cell.num 1]).errors
      = initState.errors ++ [rowErrorMsg 5 "MM"] :=
  ⟨(row_skip_and_error_rule stubPrims "CUT" 0 initState
      [Cell.str "garbage", Cell.str "L1", Cell.num 5, Cell.num 1]).1
      (by decide) (by decide),
   (row_skip_and_error_rule stubPrims "MM" 3 initState
      [Cell.str "x", Cell.num 1]).2 (by decide) (by decide) (by decide)⟩

/-! ## Date normalization -/

theorem pySplit_of_not_mem (sep : Char) (a : List Char) (h : sep ∉ a) :
    pySplit sep a = [a] := by
  induction a with
  | nil => rfl
  | cons c cs ih =>
      have hc : ¬ c = sep := fun hc => h (hc ▸ List.mem_cons_self c cs)
      have ih' := ih (fun hm => h (List.mem_cons_of_mem c hm))
      simp only [pySplit, if_neg hc, ih']

theorem pySplit_append (sep : Char) (a rest : List Char) (h : sep ∉ a) :
    pySplit sep (a ++ sep :: rest) = a :: pySplit sep rest := by
  induction a with
  | nil => simp [pySplit]
  | cons c cs ih =>
      have hc : ¬ c = sep := fun hc => h (hc ▸ List.mem_cons_self c cs)
      have ih' := ih (fun hm => h (List.mem_cons_of_mem c hm))
      simp only [List.cons_append, pySplit, if_neg hc, List.append_eq, ih']

theorem zfill_of_le (l : List Char) (h : 2 ≤ l.length) : zfill 2 l = l := by
  unfold zfill
  rw [if_pos h]

theorem tryDayFirst_composed (sep : Char) (d m y : List Char)
    (hd : sep ∉ d) (hm : sep ∉ m) (hy : sep ∉ y)
    (hdl : d.length = 2) (hml : m.length = 2) :
    tryDayFirst sep (d ++ sep :: (m ++ sep :: y))
      = some (y ++ '-' :: (m ++ '-' :: d)) := by
  have hcont : (d ++ sep :: (m ++ sep :: y)).contains sep = true := by
    simp
  unfold tryDayFirst
  rw [if_pos hcont, pySplit_append sep d _ hd, pySplit_append sep m _ hm,
      pySplit_of_not_mem sep y hy]
  simp only [if_pos hdl, zfill_of_le d (by omega), zfill_of_le m (by omega)]

theorem tryDayFirst_of_not_contains (sep : Char) (cs : List Char)
    (h : sep ∉ cs) : tryDayFirst sep cs = none := by
  unfold tryDayFirst
  rw [if_neg (by simpa using h)]

/-- **C4** — Date normalization: a string `DD-MM-YYYY` or `DD/MM/YYYY`
(digit tokens, first token two characters wide) is reassembled as
`YYYY-MM-DD` without calendar validation; a string matched by neither rule
falls back to the generic parser; when that fails too the result is the "no
date" value rather than an error, and the extractor then skips such a row. -/
theorem date_normalization (P : Prims) (d m y : String)
    (hd : ∀ c ∈ d.data, c.isDigit) (hm : ∀ c ∈ m.data, c.isDigit)
    (hy : ∀ c ∈ y.data, c.isDigit)
    (hdl : d.length = 2) (hml : m.length = 2)
    (hs1 : pyStrip (d ++ "-" ++ m ++ "-" ++ y) = d ++ "-" ++ m ++ "-" ++ y)
    (hs2 : pyStrip (d ++ "/" ++ m ++ "/" ++ y) = d ++ "/" ++ m ++ "/" ++ y) :
    (normalize_date P (Cell.str (d ++ "-" ++ m ++ "-" ++ y))
        = some (y ++ "-" ++ m ++ "-" ++ d)) ∧
    (normalize_date P (Cell.str (d ++ "/" ++ m ++ "/" ++ y))
        = some (y ++ "-" ++ m ++ "-" ++ d)) ∧
    (∀ s : String, tryDayFirst '-' (pyStrip s).toList = none →
      tryDayFirst '/' (pyStrip s).toList = none →
      normalize_date P (Cell.str s) = P.parseDateStr (pyStrip s)) ∧
    (∀ s : String, tryDayFirst '-' (pyStrip s).toList = none →
      tryDayFirst '/' (pyStrip s).toList = none →
      P.parseDateStr (pyStrip s) = none →
      normalize_date P (Cell.str s) = none) ∧
    (∀ (stage : String) (idx : Nat) (st : State) (row : List Cell),
      normalize_date P (getCell row 0) = none → 2 < row.length →
      processRow P stage idx st row = st) := by
  have hnot : ∀ (s : String) (c : Char), (∀ x ∈ s.data, x.isDigit) →
      ¬ c.isDigit → c ∉ s.data := by
    intro s c hall hc hmem
    exact hc (hall c hmem)
  have hddash := hnot d '-' hd (by decide)
  have hmdash := hnot m '-' hm (by decide)
  have hydash := hnot y '-' hy (by decide)
  have hdslash := hnot d '/' hd (by decide)
  have hmslash := hnot m '/' hm (by decide)
  have hyslash := hnot y '/' hy (by decide)
  have hdlen : d.data.length = 2 := hdl
  have hmlen : m.data.length = 2 := hml
  have hout : String.mk (y.data ++ '-' :: (m.data ++ '-' :: d.data))
      = y ++ "-" ++ m ++ "-" ++ d := by
    apply String.ext
    simp [String.data_append]
  refine ⟨?_, ?_, ?_, ?_, ?_⟩
  · have hdata : (d ++ "-" ++ m ++ "-" ++ y).toList
        = d.data ++ '-' :: (m.data ++ '-' :: y.data) := by
      simp [String.toList, String.data_append]
    simp only [normalize_date, hs1, hdata,
      tryDayFirst_composed '-' d.data m.data y.data hddash hmdash hydash
        hdlen hmlen, hout]
  · have hdata : (d ++ "/" ++ m ++ "/" ++ y).toList
        = d.data ++ '/' :: (m.data ++ '/' :: y.data) := by
      simp [String.toList, String.data_append]
    have hnodash : '-' ∉ d.data ++ '/' :: (m.data ++ '/' :: y.data) := by
      intro hmem
      rcases List.mem_append.mp hmem with h | h
      · exact hddash h
      · rcases List.mem_cons.mp h with h | h
        · exact absurd h (by decide)
        · rcases List.mem_append.mp h with h | h
          · exact hmdash h
          · rcases List.mem_cons.mp h with h | h
            · exact absurd h (by decide)
            · exact hydash h
    simp only [normalize_date, hs2, hdata,
      tryDayFirst_of_not_contains '-' _ hnodash,
      tryDayFirst_composed '/' d.data m.data y.data hdslash hmslash hyslash
        hdlen hmlen, hout]
  · intro s h1 h2
    simp only [normalize_date, h1, h2]
  · intro s h1 h2 h3
    simp only [normalize_date, h1, h2, h3]
  · intro stage idx st row hdate hlen
    unfold processRow
    rw [if_neg (by omega : ¬ row.length = 0)]
    by_cases hb : blankFirst (getCell row 0)
    · rw [if_pos hb]
    · rw [if_neg hb, if_neg (by omega : ¬ row.length ≤ 2),
          if_pos (Or.inl (by rw [hdate]; rfl))]

/-- Witness for C4 at the concrete strings of the specification. -/
theorem date_normalization_witness :
    normalize_date stubPrims (Cell.str ("14" ++ "-" ++ "06" ++ "-" ++ "2025"))
      = some ("2025" ++ "-" ++ "06" ++ "-" ++ "14") :=
  (date_normalization stubPrims "14" "06" "2025" (by decide) (by decide)
    (by decide) (by decide) (by decide) (by decide) (by decide)).1

/-! ## Serialization -/

/-- **C7** — Serialization contract: the lots artifact is the header
followed by the lot rows sorted ascending by `lot_number` (lexicographic
string order); the records artifact is the header followed by the record
rows sorted ascending by `(process_date, stage)` with the stage compared as
its label string; the column order is fixed as `record_id, lot_id,
lot_number, stage, process_date, given_pieces, given_weight,
received_pieces, received_weight`; and an absent integer field renders as
an empty field, which is neither a zero nor a null-marker literal. -/
theorem serialization_contract (st : State) :
    List.Sorted lotLE (sortedLots st) ∧
    List.Sorted recLE (sortedRecords st) ∧
    lotsCsv st = ["lot_id", "lot_number", "lot_weight", "status"] ::
      (sortedLots st).map renderLot ∧
    recordsCsv st = ["record_id", "lot_id", "lot_number", "stage",
      "process_date", "given_pieces", "given_weight", "received_pieces",
      "received_weight"] :: (sortedRecords st).map renderRecord ∧
    (∀ r : Record, renderRecord r =
      [toString r.record_id, toString r.lot_id, r.lot_number, r.stage,
       r.process_date, optIntField r.given_pieces, fmt4 r.given_weight,
       optIntField r.received_pieces, fmt4 r.received_weight]) ∧
    optIntField none = "" ∧
    (∀ k : Int, optIntField (some k) = toString k) ∧
    ("" : String) ≠ "0" ∧ ("" : String) ≠ "None" :=
  ⟨List.sorted_insertionSort lotLE st.lots_data,
   List.sorted_insertionSort recLE st.records, rfl, rfl,
   fun _ => rfl, rfl, fun _ => rfl, by decide, by decide⟩

end CsvTrial
